import Mathlib

/-!
Verification of the composite-image segmentation engine in
`scripts/split_image.py`.

The Python source is shallowly embedded as executable Lean functions:

* a row/column of pixels is a `List (List Nat)` (pixels, each a list of
  8-bit channel values); an image is a `List (List (List Nat))` (rows);
* the per-line blank flags consumed by `find_regions` are a `List Bool`,
  mirroring the Python list comprehension
  `is_white = [is_white_func(i) for i in range(axis_size)]`;
* floating-point means and ratios are modelled exactly over `ℚ`;
* Python `str.format` (used by `generate_output_filename`) is modelled by
  `pyFormat`, which returns `Except FmtError String` because `str.format`
  raises on unknown field names and unmatched braces.
-/

namespace SplitImage

/-- Length of the leading run of `true` entries of a list of blank flags.
This is the Python look-ahead
`while gap_end < axis_size and is_white[gap_end]: gap_end += 1`:
starting at position `i`, `gap_end - i = leadRun (drop i w)`. -/
def leadRun : List Bool → Nat
  | [] => 0
  | b :: t => if b then leadRun t + 1 else 0

/-- The scanning loop of `find_regions` (`split_image.py` lines 130-145).
`l` is the remaining suffix of the blank-flag list, `i` the current index,
`regions` the accumulator, `inR` the `in_region` flag and `start` the
start index of the currently open region.  After the loop the trailing
region `(start, axis_size)` is appended when still in a region and long
enough; `i` equals `axis_size` at that point. -/
def frLoop (minGap minSize : Nat) : List Bool → Nat → List (Nat × Nat) → Bool → Nat → List (Nat × Nat)
  | [], i, regions, inR, start =>
      if inR = true ∧ minSize ≤ i - start then regions ++ [(start, i)] else regions
  | b :: rest, i, regions, inR, start =>
      if b = false ∧ inR = false then
        frLoop minGap minSize rest (i + 1) regions true i
      else if b = true ∧ inR = true then
        if minGap ≤ leadRun (b :: rest) ∨ leadRun (b :: rest) = rest.length + 1 then
          frLoop minGap minSize rest (i + 1)
            (if minSize ≤ i - start then regions ++ [(start, i)] else regions) false start
        else
          frLoop minGap minSize rest (i + 1) regions inR start
      else
        frLoop minGap minSize rest (i + 1) regions inR start

/-- Embedding of `find_regions` (`split_image.py` lines 123-147) applied to
the materialized list of per-line blank flags.  `leadRun (b :: rest)` is
`gap_end - i` and `leadRun (b :: rest) = rest.length + 1` is
`gap_end == axis_size`. -/
def find_regions (w : List Bool) (minGap minSize : Nat) : List (Nat × Nat) :=
  frLoop minGap minSize w 0 [] false 0

/-- Mean of a Boolean numpy array: number of `true` entries over the size
(`np.mean` of a comparison result). -/
def npMeanBool (bs : List Bool) : ℚ :=
  (bs.countP id : ℚ) / bs.length

/-- Brightness of one pixel: `np.mean(pixels, axis=-1)`, the mean of its
channel values. -/
def brightness (p : List Nat) : ℚ :=
  (p.sum : ℚ) / p.length

/-- A pixel counted as bright by the trim classifier:
`brightness > brightness_threshold` (`split_image.py` line 29). -/
def brightPixel (thr : Nat) (p : List Nat) : Bool :=
  decide ((thr : ℚ) < brightness p)

/-- Embedding of `is_edge_white` (`split_image.py` lines 27-30): the mean
of the per-pixel comparison `brightness > brightness_threshold` is at
least `white_ratio`. -/
def is_edge_white (thr : Nat) (ratio : ℚ) (line : List (List Nat)) : Bool :=
  decide (ratio ≤ npMeanBool (line.map (brightPixel thr)))

/-- A pixel counted as white by the segmentation classifiers:
`np.all(pixels > white_threshold, axis=1)` — every channel strictly above
the threshold (`split_image.py` lines 115, 120). -/
def pixelAllWhite (thr : Nat) (p : List Nat) : Bool :=
  p.all (fun c => decide (thr < c))

/-- Embedding of the shared body of `is_white_column` / `is_white_row`
(`split_image.py` lines 113-121) applied to the line of pixels:
`np.mean(pixel_is_white) >= white_ratio`. -/
def is_white_line (thr : Nat) (ratio : ℚ) (line : List (List Nat)) : Bool :=
  decide (ratio ≤ npMeanBool (line.map (pixelAllWhite thr)))

/-- Spec-side line classifier, following the spec's words (§4.1): a pixel
is bright iff the mean of its channel values exceeds the threshold, and
the line is blank iff the fraction of bright pixels is at least the
ratio.  Used only to compare the spec's claim against the source
classifiers. -/
def lineBlankSpec (thr : Nat) (ratio : ℚ) (line : List (List Nat)) : Bool :=
  decide (ratio ≤ (line.countP (brightPixel thr) : ℚ) / line.length)

/-- Width of an image, `img_array.shape[1]` for a rectangular row list. -/
def imgWidth (img : List (List (List Nat))) : Nat :=
  (img.headD []).length

/-- Row `i` of an image: `img_array[i, :, :]`. -/
def imgRow (img : List (List (List Nat))) (i : Nat) : List (List Nat) :=
  img.getD i []

/-- Column `j` of an image: `img_array[:, j, :]`. -/
def imgCol (img : List (List (List Nat))) (j : Nat) : List (List Nat) :=
  img.map (fun r => r.getD j [])

/-- One edge-scanning loop of `trim_white_border`
(`for i in range(limit): if white(line i): count = i + 1 else: break`):
`i` is the current index, the result is the number of consecutive blank
lines from the edge, capped at the limit. -/
def scanTrimAux (f : Nat → Bool) : Nat → Nat → Nat
  | 0, i => i
  | limit + 1, i => if f i then scanTrimAux f limit (i + 1) else i

/-- Number of consecutive blank edge lines, capped at `limit`. -/
def scanTrim (f : Nat → Bool) (limit : Nat) : Nat :=
  scanTrimAux f limit 0

/-- Membership test `c in sides.lower()` of `trim_white_border`, on the
character sequence of the Python string. -/
def sideEnabled (sides : String) (c : Char) : Bool :=
  (sides.data.map Char.toLower).contains c

/-- Embedding of `trim_white_border` (`split_image.py` lines 16-67).
`sides` is the Python string argument; a side is scanned only when its
letter occurs in `sides.lower()`. -/
def trim_white_border (img : List (List (List Nat))) (thr : Nat) (ratio : ℚ)
    (maxTrim : Nat) (sides : String) : Nat × Nat × Nat × Nat :=
  let height := img.length
  let width := imgWidth img
  let top := if sideEnabled sides 't' then
    scanTrim (fun i => is_edge_white thr ratio (imgRow img i)) (min maxTrim (height / 4)) else 0
  let bottom := if sideEnabled sides 'b' then
    scanTrim (fun i => is_edge_white thr ratio (imgRow img (height - 1 - i))) (min maxTrim (height / 4)) else 0
  let left := if sideEnabled sides 'l' then
    scanTrim (fun i => is_edge_white thr ratio (imgCol img i)) (min maxTrim (width / 4)) else 0
  let right := if sideEnabled sides 'r' then
    scanTrim (fun i => is_edge_white thr ratio (imgCol img (width - 1 - i))) (min maxTrim (width / 4)) else 0
  (top, bottom, left, right)

/-- Applying trim counts to a sub-image: the crop
`(x1 + left, y1 + top, x2 - right, y2 - bottom)` of
`split_composite_image` (lines 181-184) expressed on the sub-image
itself. -/
def applyTrim (img : List (List (List Nat))) (top bottom left right : Nat) :
    List (List (List Nat)) :=
  ((img.drop top).take (img.length - top - bottom)).map
    (fun r => (r.drop left).take (r.length - left - right))

/-- Errors raised by Python `str.format`: an unknown field name
(`KeyError`) or a single/unmatched brace (`ValueError`). -/
inductive FmtError where
  | unknownField : String → FmtError
  | unmatchedBrace : FmtError
deriving DecidableEq

/-- Keyword lookup for the five fields passed to `str.format` in
`generate_output_filename` (`split_image.py` lines 78-84); any other
field name is a `KeyError`. -/
def fmtLookup (base : String) (row col n : Nat) (field : String) : Option String :=
  if field = "name" then some base
  else if field = "row" then some (Nat.repr row)
  else if field = "col" then some (Nat.repr col)
  else if field = "n" then some (Nat.repr n)
  else if field = "N" then some (Nat.repr (n + 1))
  else none

/-- Read a replacement-field name up to the closing brace; `none` when
the brace is never closed. -/
def splitField : List Char → Option (String × List Char)
  | [] => none
  | c :: r =>
      if c = '\x7d' then some ("", r)
      else (splitField r).map (fun p => (c.toString ++ p.1, p.2))

/-- Core of the model of Python `str.format` with the five keyword
arguments of `generate_output_filename`: doubled braces are literal
braces, a recognized replacement field is substituted, an unknown field
name or an unmatched brace is an error.  Conversions and format specs
(`{x!r}`, `{x:...}`) are outside the templates this program documents and
are treated as unknown fields.  The fuel argument is the remaining
character count; every step consumes at least one character and one
fuel, so starting fuel equal to the template length never runs out. -/
def fmtCore (base : String) (row col n : Nat) : Nat → List Char → Except FmtError String
  | _, [] => Except.ok ""
  | 0, _ :: _ => Except.error FmtError.unmatchedBrace
  | fuel + 1, c :: cs =>
      if c = '\x7b' then
        match cs with
        | [] => Except.error FmtError.unmatchedBrace
        | c2 :: cs2 =>
            if c2 = '\x7b' then
              (fmtCore base row col n fuel cs2).map (fun s => "\x7b" ++ s)
            else
              match splitField cs with
              | none => Except.error FmtError.unmatchedBrace
              | some (field, rest) =>
                  match fmtLookup base row col n field with
                  | none => Except.error (FmtError.unknownField field)
                  | some v => (fmtCore base row col n fuel rest).map (fun s => v ++ s)
      else if c = '\x7d' then
        match cs with
        | [] => Except.error FmtError.unmatchedBrace
        | c2 :: cs2 =>
            if c2 = '\x7d' then
              (fmtCore base row col n fuel cs2).map (fun s => "\x7d" ++ s)
            else Except.error FmtError.unmatchedBrace
      else
        (fmtCore base row col n fuel cs).map (fun s => c.toString ++ s)

/-- Model of `template.format(name=base, row=row, col=col, n=n, N=n+1)`. -/
def pyFormat (base : String) (row col n : Nat) (template : String) : Except FmtError String :=
  fmtCore base row col n template.data.length template.data

/-- Embedding of `generate_output_filename` (`split_image.py` lines
70-84).  The Python `suffix_list` is `None` or a list; both `None` and
`[]` are falsy, so an empty list models the template branch faithfully. -/
def generate_output_filename (base : String) (row col totalCols : Nat)
    (template : String) (suffixList : List String) : Except FmtError String :=
  let n := row * totalCols + col
  if suffixList.isEmpty then pyFormat base row col n template
  else Except.ok (base ++ suffixList.getD (n % suffixList.length) "")

/-- Whole-axis fallback of `split_composite_image` (lines 152-155):
an axis with no detected regions uses the single interval `(0, axisLen)`. -/
def fallback (axisLen : Nat) (regs : List (Nat × Nat)) : List (Nat × Nat) :=
  if regs.isEmpty then [(0, axisLen)] else regs

/-- The nested emission loops of `split_composite_image` (lines 168-169):
`for vi, (y1, y2) in enumerate(v_regions): for hi, (x1, x2) in
enumerate(h_regions)`, each cell carrying its row index, column index and
the two axis intervals. -/
def assembleSlices (vRegs hRegs : List (Nat × Nat)) :
    List (Nat × Nat × (Nat × Nat) × (Nat × Nat)) :=
  vRegs.enum.flatMap (fun v => hRegs.enum.map (fun hc => (v.1, hc.1, v.2, hc.2)))

/-- Output names in emission order: `generate_output_filename(base, vi,
hi, len(h_regions), ...)` for each emitted cell (line 194-197). -/
def assembleNames (base : String) (vRegs hRegs : List (Nat × Nat))
    (template : String) (suffixList : List String) : List (Except FmtError String) :=
  (assembleSlices vRegs hRegs).map
    (fun s => generate_output_filename base s.1 s.2.1 hRegs.length template suffixList)

/-- Well-formedness of an accepted interval on an axis of blank flags
`w`: half-open, inside the axis, at least `minSize` long, and both its
first and last line are content (non-blank) lines. -/
def regOK (w : List Bool) (ms : Nat) (p : Nat × Nat) : Prop :=
  p.1 < p.2 ∧ p.2 ≤ w.length ∧ ms ≤ p.2 - p.1 ∧
    w.getD p.1 false = false ∧ w.getD (p.2 - 1) false = false

/-- Separation of two consecutive intervals: the first ends strictly
before the second starts. -/
def sep (p q : Nat × Nat) : Prop :=
  p.2 < q.1

theorem npMeanBool_map {α : Type} (f : α → Bool) (l : List α) :
    npMeanBool (l.map f) = (l.countP f : ℚ) / l.length := by
  simp [npMeanBool, List.countP_map]

/-- Claim C2, corrected.  The trim classifier `is_edge_white` classifies a
line as blank iff the fraction of pixels whose mean channel value exceeds
the threshold is at least the ratio, exactly as the claim states; the
segmentation classifiers `is_white_row` / `is_white_column` instead count
a pixel as white iff every channel strictly exceeds the threshold, and
classify the line as blank iff the fraction of such pixels is at least
the ratio. -/
theorem claim2_classifiers (thr : Nat) (ratio : ℚ) (line : List (List Nat)) :
    (is_edge_white thr ratio line = true ↔
      ratio ≤ (line.countP (fun p => decide ((thr : ℚ) < brightness p)) : ℚ) / line.length) ∧
    (is_white_line thr ratio line = true ↔
      ratio ≤ (line.countP (fun p => p.all (fun c => decide (thr < c))) : ℚ) / line.length) := by
  constructor
  · rw [is_edge_white, npMeanBool_map]
    exact decide_eq_true_iff
  · rw [is_white_line, npMeanBool_map]
    exact decide_eq_true_iff

/-- Counterexample to claim C2 as stated: on the single-pixel line
`[[255, 255, 230]]` with threshold 245 and ratio 49/50, the pixel's mean
channel value is 740/3 > 245, so the claimed mean-based rule classifies
the line as blank, but the segmentation classifier does not (channel 230
is not above 245, so `np.all` rejects the pixel). -/
theorem claim2_cex :
    is_white_line 245 (49/50) [[255, 255, 230]] = false ∧
    lineBlankSpec 245 (49/50) [[255, 255, 230]] = true := by
  constructor
  · simp [is_white_line, npMeanBool, pixelAllWhite]
  · have h : brightPixel 245 [255, 255, 230] = true := by
      simp [brightPixel, brightness]
      norm_num
    simp [lineBlankSpec, h]
    norm_num

/-- Claim C7.  With a non-empty suffix list of length `m`, two cells whose
linear indices `row * totalCols + col` differ by exactly `m` resolve to
the same output name: the suffix index is taken modulo `m`, so the suffix
assignment wraps around cyclically. -/
theorem claim7_cyclic_suffix (base template : String) (sl : List String)
    (row col row' col' tc : Nat) (hm : 1 ≤ sl.length)
    (hidx : row' * tc + col' = row * tc + col + sl.length) :
    generate_output_filename base row' col' tc template sl =
      generate_output_filename base row col tc template sl := by
  have hne : sl.isEmpty = false := by
    cases sl with
    | nil => simp at hm
    | cons a t => rfl
  simp only [generate_output_filename, hne, hidx, Nat.add_mod_right, Bool.false_eq_true,
    if_false]

/-- Witness for claim C7 at the concrete input of spec scenario D:
suffix list `["_a", "_b"]`, cells `(0,1)` and `(1,1)` of a 2-column grid
have linear indices 1 and 3 and resolve to the same name. -/
theorem claim7_witness :
    1 ≤ (["_a", "_b"] : List String).length ∧
    1 * 2 + 1 = 0 * 2 + 1 + (["_a", "_b"] : List String).length ∧
    generate_output_filename "b" 1 1 2 "x" ["_a", "_b"] =
      generate_output_filename "b" 0 1 2 "x" ["_a", "_b"] :=
  ⟨by decide, by decide,
    claim7_cyclic_suffix "b" "x" ["_a", "_b"] 0 1 1 1 2 (by decide) (by decide)⟩

/-- Claim C8, corrected.  With no suffix list, `generate_output_filename`
renders the template substituting the five recognized placeholders; a
doubled brace renders as a single literal brace; but brace characters
that do not form a recognized placeholder are not passed through
unchanged: an unknown field name or an unmatched brace raises a
formatting error, as Python `str.format` does. -/
theorem claim8_template_braces (base : String) (row col tc : Nat) :
    generate_output_filename base row col tc "{name}" [] = Except.ok base ∧
    generate_output_filename base row col tc "{row}" [] = Except.ok (Nat.repr row) ∧
    generate_output_filename base row col tc "{col}" [] = Except.ok (Nat.repr col) ∧
    generate_output_filename base row col tc "{n}" [] =
      Except.ok (Nat.repr (row * tc + col)) ∧
    generate_output_filename base row col tc "{N}" [] =
      Except.ok (Nat.repr (row * tc + col + 1)) ∧
    pyFormat base row col (row * tc + col)
        (String.mk ['a', '{', '{', 'b', '}', '}', 'c']) =
      Except.ok (String.mk ['a', '{', 'b', '}', 'c']) ∧
    generate_output_filename base row col tc "{z}" [] =
      Except.error (FmtError.unknownField "z") ∧
    generate_output_filename base row col tc (String.mk ['{', 'n']) [] =
      Except.error FmtError.unmatchedBrace ∧
    generate_output_filename base row col tc (String.mk ['}', 'x']) [] =
      Except.error FmtError.unmatchedBrace := by
  refine ⟨?_, ?_, ?_, ?_, ?_, rfl, rfl, rfl, rfl⟩
  · show Except.ok (base ++ "") = _
    rw [String.append_empty]
  · show Except.ok (Nat.repr row ++ "") = _
    rw [String.append_empty]
  · show Except.ok (Nat.repr col ++ "") = _
    rw [String.append_empty]
  · show Except.ok (Nat.repr (row * tc + col) ++ "") = _
    rw [String.append_empty]
  · show Except.ok (Nat.repr (row * tc + col + 1) ++ "") = _
    rw [String.append_empty]

/-- Counterexample to claim C8 as stated: the template `"{z}"` contains
braces that do not form a recognized placeholder, and instead of passing
them through unchanged the renderer raises a `KeyError`-style formatting
error. -/
theorem claim8_cex :
    pyFormat "img" 0 0 0 "{z}" = Except.error (FmtError.unknownField "z") := rfl

theorem leadRun_le_length (l : List Bool) : leadRun l ≤ l.length := by
  induction l with
  | nil => simp [leadRun]
  | cons b t ih =>
      cases b
      · simp [leadRun]
      · simp only [leadRun, if_true]
        simpa using ih

theorem leadRun_rep_true (k : Nat) (r : List Bool) :
    leadRun (List.replicate k true ++ false :: r) = k := by
  induction k with
  | zero => simp [leadRun]
  | succ k ih => simpa [List.replicate_succ, leadRun] using ih

theorem frLoop_nil (mg ms i : Nat) (R : List (Nat × Nat)) (inR : Bool) (s : Nat) :
    frLoop mg ms [] i R inR s =
      if inR = true ∧ ms ≤ i - s then R ++ [(s, i)] else R := rfl

theorem frLoop_open (mg ms : Nat) (rest : List Bool) (i : Nat) (R : List (Nat × Nat)) (s : Nat) :
    frLoop mg ms (false :: rest) i R false s = frLoop mg ms rest (i + 1) R true i := by
  simp [frLoop]

theorem frLoop_cont_in (mg ms : Nat) (rest : List Bool) (i : Nat) (R : List (Nat × Nat)) (s : Nat) :
    frLoop mg ms (false :: rest) i R true s = frLoop mg ms rest (i + 1) R true s := by
  simp [frLoop]

theorem frLoop_blank_out (mg ms : Nat) (rest : List Bool) (i : Nat) (R : List (Nat × Nat)) (s : Nat) :
    frLoop mg ms (true :: rest) i R false s = frLoop mg ms rest (i + 1) R false s := by
  simp [frLoop]

theorem frLoop_close (mg ms : Nat) (rest : List Bool) (i : Nat) (R : List (Nat × Nat)) (s : Nat)
    (h : mg ≤ leadRun (true :: rest) ∨ leadRun (true :: rest) = rest.length + 1) :
    frLoop mg ms (true :: rest) i R true s =
      frLoop mg ms rest (i + 1) (if ms ≤ i - s then R ++ [(s, i)] else R) false s := by
  simp [frLoop, h]

theorem frLoop_noise (mg ms : Nat) (rest : List Bool) (i : Nat) (R : List (Nat × Nat)) (s : Nat)
    (h : ¬(mg ≤ leadRun (true :: rest) ∨ leadRun (true :: rest) = rest.length + 1)) :
    frLoop mg ms (true :: rest) i R true s = frLoop mg ms rest (i + 1) R true s := by
  simp [frLoop, h]

theorem frLoop_skip_content (mg ms : Nat) (l : List Bool) (R : List (Nat × Nat)) (s : Nat)
    (k : Nat) : ∀ i, frLoop mg ms (List.replicate k false ++ l) i R true s =
      frLoop mg ms l (i + k) R true s := by
  induction k with
  | zero => simp
  | succ k ih =>
      intro i
      rw [List.replicate_succ, List.cons_append, frLoop_cont_in, ih]
      ring_nf

theorem frLoop_skip_blank_out (mg ms : Nat) (l : List Bool) (R : List (Nat × Nat)) (s : Nat)
    (k : Nat) : ∀ i, frLoop mg ms (List.replicate k true ++ l) i R false s =
      frLoop mg ms l (i + k) R false s := by
  induction k with
  | zero => simp
  | succ k ih =>
      intro i
      rw [List.replicate_succ, List.cons_append, frLoop_blank_out, ih]
      ring_nf

theorem frLoop_skip_noise (mg ms : Nat) (l : List Bool) (R : List (Nat × Nat)) (s : Nat)
    (k : Nat) (hk : k < mg) :
    ∀ i, frLoop mg ms (List.replicate k true ++ false :: l) i R true s =
      frLoop mg ms (false :: l) (i + k) R true s := by
  induction k with
  | zero => simp
  | succ k ih =>
      intro i
      rw [List.replicate_succ, List.cons_append]
      rw [frLoop_noise]
      · rw [ih (by omega)]
        ring_nf
      · have h1 : leadRun (true :: (List.replicate k true ++ false :: l)) = k + 1 := by
          have := leadRun_rep_true (k + 1) l
          simpa [List.replicate_succ] using this
        rw [h1]
        push_neg
        constructor
        · omega
        · simp

/-- Claim C1, corrected.  On an axis made of a content block of `a`
lines, a blank run of `g` lines and a content block of `b` lines:
if `g ≥ minGap` the two blocks are returned as two intervals provided
each block is at least `minSize` long, and if `g < minGap` the blank run
is treated as noise and a single interval spanning both blocks is
returned provided the whole axis is at least `minSize` long.  (The
original claim omitted the `minSize` side conditions; `claim1_cex` shows
they are necessary.) -/
theorem claim1_two_blocks (a g b mg ms : Nat) (ha : 1 ≤ a) (hg : 1 ≤ g) (hb : 1 ≤ b) :
    (mg ≤ g → ms ≤ a → ms ≤ b →
      find_regions (List.replicate a false ++ List.replicate g true ++ List.replicate b false) mg ms
        = [(0, a), (a + g, a + g + b)]) ∧
    (g < mg → ms ≤ a + g + b →
      find_regions (List.replicate a false ++ List.replicate g true ++ List.replicate b false) mg ms
        = [(0, a + g + b)]) := by
  obtain ⟨a', rfl⟩ : ∃ a', a = a' + 1 := ⟨a - 1, by omega⟩
  obtain ⟨g', rfl⟩ : ∃ g', g = g' + 1 := ⟨g - 1, by omega⟩
  obtain ⟨b', rfl⟩ : ∃ b', b = b' + 1 := ⟨b - 1, by omega⟩
  have hcommon :
      find_regions (List.replicate (a' + 1) false ++ List.replicate (g' + 1) true ++
          List.replicate (b' + 1) false) mg ms =
        frLoop mg ms (List.replicate (g' + 1) true ++ List.replicate (b' + 1) false)
          (a' + 1) [] true 0 := by
    rw [find_regions, List.replicate_succ, List.cons_append, List.cons_append, frLoop_open,
      List.append_assoc, frLoop_skip_content]
    ring_nf
  have hb1 : List.replicate (b' + 1) false = false :: List.replicate b' false :=
    List.replicate_succ false b'
  have hlead : leadRun (true :: (List.replicate g' true ++ List.replicate (b' + 1) false)) =
      g' + 1 := by
    have h0 := leadRun_rep_true (g' + 1) (List.replicate b' false)
    rw [List.replicate_succ (n := g'), List.cons_append] at h0
    rw [hb1, h0]
  constructor
  · intro hmg hma hmb
    rw [hcommon, List.replicate_succ, List.cons_append, frLoop_close, if_pos (by omega)]
    · rw [frLoop_skip_blank_out, hb1, frLoop_open]
      have hb' : List.replicate b' false = List.replicate b' false ++ ([] : List Bool) := by
        simp
      rw [hb', frLoop_skip_content, frLoop_nil, if_pos]
      · have e1 : a' + 1 + 1 + g' = a' + 1 + (g' + 1) := by omega
        have e2 : a' + 1 + 1 + g' + 1 + b' = a' + 1 + (g' + 1) + (b' + 1) := by omega
        rw [e2, e1]
        simp
      · exact ⟨rfl, by omega⟩
    · rw [hlead]
      exact Or.inl (by omega)
  · intro hgm hms
    rw [hcommon, hb1, frLoop_skip_noise _ _ _ _ _ _ hgm, frLoop_cont_in]
    have hb' : List.replicate b' false = List.replicate b' false ++ ([] : List Bool) := by
      simp
    rw [hb', frLoop_skip_content, frLoop_nil, if_pos]
    · have e2 : a' + 1 + (g' + 1) + 1 + b' = a' + 1 + (g' + 1) + (b' + 1) := by omega
      rw [e2]
      simp
    · exact ⟨rfl, by omega⟩

/-- Counterexample to claim C1 as stated: the axis `[content, blank,
content]` has two content blocks separated by a single blank run of
length `g = 1 ≥ minGap = 1`, so the claim predicts two intervals, but
with `minSize = 2` both blocks are discarded and `find_regions` returns
no interval at all. -/
theorem claim1_cex : find_regions [false, true, false] 1 2 = [] := by decide

/-- Witness for claim C1: blocks of 2 lines each around a 1-line gap,
`minGap = 1`, `minSize = 2`; both side conditions hold and the two
intervals are returned. -/
theorem claim1_witness :
    (1 ≤ 2 ∧ 1 ≤ 1 ∧ 1 ≤ 2 ∧ 1 ≤ 2 ∧ 2 ≤ 2) ∧
    find_regions (List.replicate 2 false ++ List.replicate 1 true ++ List.replicate 2 false)
        1 2 = [(0, 2), (3, 5)] :=
  ⟨by omega,
    (claim1_two_blocks 2 1 2 1 2 (by omega) (by omega) (by omega)).1 (by omega) (by omega)
      (by omega)⟩

theorem chain_append_singleton (R : List (Nat × Nat)) (p : Nat × Nat)
    (hR : List.Chain' sep R) (h : ∀ q ∈ R, q.2 < p.1) :
    List.Chain' sep (R ++ [p]) := by
  induction R with
  | nil => simp
  | cons a t ih =>
      rw [List.cons_append]
      rcases t with _ | ⟨b, t'⟩
      · simp only [List.nil_append]
        exact List.chain'_cons.mpr ⟨h a (List.mem_singleton.mpr rfl), List.chain'_singleton p⟩
      · have hab : sep a b := (List.chain'_cons.mp hR).1
        have ht : List.Chain' sep (b :: t') := (List.chain'_cons.mp hR).2
        have hrec := ih ht (fun q hq => h q (List.mem_cons_of_mem _ hq))
        rw [List.cons_append] at hrec
        rw [List.cons_append]
        exact List.chain'_cons.mpr ⟨hab, hrec⟩

/-- Master invariant of the `find_regions` scanning loop.  `l` is the
suffix of the blank-flag list `w` starting at index `i`; the accumulated
regions are well formed (`regOK`), strictly separated, end on blank
lines, and lie left of the open region's start; when in a region whose
preceding line is blank, that blank run was already judged noise, so it
neither reaches `minGap` nor the axis end. -/
theorem frLoop_inv (w : List Bool) (mg ms : Nat) :
    ∀ (l : List Bool) (i : Nat) (R : List (Nat × Nat)) (inR : Bool) (s : Nat),
    w.drop i = l → i ≤ w.length →
    (∀ p ∈ R, regOK w ms p ∧ w.getD p.2 false = true ∧ p.2 ≤ i) →
    List.Chain' sep R →
    (inR = true → s < i ∧ w.getD s false = false ∧ ∀ p ∈ R, p.2 < s) →
    (inR = true → w.getD (i - 1) false = true →
      leadRun l + 1 < mg ∧ i + leadRun l ≠ w.length) →
    (∀ p ∈ frLoop mg ms l i R inR s, regOK w ms p) ∧
      List.Chain' sep (frLoop mg ms l i R inR s) := by
  intro l
  induction l with
  | nil =>
      intro i R inR s hdrop hile hR hchain hInv hQ
      have hieq : i = w.length := by
        have := congrArg List.length hdrop
        simp [List.length_drop] at this
        omega
      rw [frLoop_nil]
      by_cases hc : inR = true ∧ ms ≤ i - s
      · rw [if_pos hc]
        obtain ⟨hsi, hss, hlt⟩ := hInv hc.1
        have hlast : w.getD (i - 1) false = false := by
          by_cases hl : w.getD (i - 1) false = true
          · exact absurd (by simpa [leadRun] using (hQ hc.1 hl).2) (by omega)
          · simpa using hl
        constructor
        · intro p hp
          rcases List.mem_append.mp hp with hp | hp
          · exact (hR p hp).1
          · rw [List.mem_singleton.mp hp]
            exact ⟨by omega, by omega, by omega, by simpa [hieq] using hss,
              by simpa [hieq] using hlast⟩
        · exact chain_append_singleton R (s, i) hchain hlt
      · rw [if_neg hc]
        exact ⟨fun p hp => (hR p hp).1, hchain⟩
  | cons b rest ih =>
      intro i R inR s hdrop hile hR hchain hInv hQ
      have hlen : i < w.length := by
        have := congrArg List.length hdrop
        simp [List.length_drop] at this
        omega
      have hrest : w.drop (i + 1) = rest := by
        have h1 := congrArg (List.drop 1) hdrop
        rw [List.drop_drop] at h1
        simpa using h1
      have hbd : w.getD i false = b := by
        have h2 : (w.drop i)[0]? = some b := by rw [hdrop]; simp
        rw [List.getElem?_drop, Nat.add_zero] at h2
        simp [List.getD_eq_getElem?_getD, h2]
      have hllen : rest.length + 1 = w.length - i := by
        have := congrArg List.length hdrop
        simp [List.length_drop] at this
        omega
      cases b
      · cases inR
        · rw [frLoop_open]
          refine ih (i + 1) R true i hrest (by omega)
            (fun p hp => ⟨(hR p hp).1, (hR p hp).2.1, by have := (hR p hp).2.2; omega⟩)
            hchain (fun _ => ⟨by omega, hbd, ?_⟩) (fun _ hq => ?_)
          · intro p hp
            have h2 := (hR p hp).2.1
            have h3 := (hR p hp).2.2
            rcases Nat.lt_or_ge p.2 i with h | h
            · exact h
            · have : p.2 = i := by omega
              rw [this, hbd] at h2
              exact absurd h2 (by simp)
          · rw [Nat.add_sub_cancel, hbd] at hq
            exact absurd hq (by simp)
        · rw [frLoop_cont_in]
          obtain ⟨hsi, hss, hlt⟩ := hInv rfl
          refine ih (i + 1) R true s hrest (by omega)
            (fun p hp => ⟨(hR p hp).1, (hR p hp).2.1, by have := (hR p hp).2.2; omega⟩)
            hchain (fun _ => ⟨by omega, hss, hlt⟩) (fun _ hq => ?_)
          rw [Nat.add_sub_cancel, hbd] at hq
          exact absurd hq (by simp)
      · cases inR
        · rw [frLoop_blank_out]
          exact ih (i + 1) R false s hrest (by omega)
            (fun p hp => ⟨(hR p hp).1, (hR p hp).2.1, by have := (hR p hp).2.2; omega⟩)
            hchain (fun h => absurd h (by simp)) (fun h => absurd h (by simp))
        · obtain ⟨hsi, hss, hlt⟩ := hInv rfl
          by_cases hq : mg ≤ leadRun (true :: rest) ∨ leadRun (true :: rest) = rest.length + 1
          · rw [frLoop_close _ _ _ _ _ _ hq]
            have hprev : w.getD (i - 1) false = false := by
              by_cases hp1 : w.getD (i - 1) false = true
              · obtain ⟨hQ1, hQ2⟩ := hQ rfl hp1
                rcases hq with hq | hq
                · exact absurd hq (by omega)
                · exact absurd (by omega : i + leadRun (true :: rest) = w.length) hQ2
              · simpa using hp1
            have hregs : ∀ p ∈ (if ms ≤ i - s then R ++ [(s, i)] else R),
                (regOK w ms p ∧ w.getD p.2 false = true ∧ p.2 ≤ i + 1) := by
              intro p hp
              by_cases hms : ms ≤ i - s
              · rw [if_pos hms] at hp
                rcases List.mem_append.mp hp with hp | hp
                · exact ⟨(hR p hp).1, (hR p hp).2.1, by have := (hR p hp).2.2; omega⟩
                · rw [List.mem_singleton.mp hp]
                  exact ⟨⟨hsi, by omega, by omega, hss, hprev⟩, hbd, by omega⟩
              · rw [if_neg hms] at hp
                exact ⟨(hR p hp).1, (hR p hp).2.1, by have := (hR p hp).2.2; omega⟩
            have hchain2 : List.Chain' sep (if ms ≤ i - s then R ++ [(s, i)] else R) := by
              by_cases hms : ms ≤ i - s
              · rw [if_pos hms]
                exact chain_append_singleton R (s, i) hchain hlt
              · rwa [if_neg hms]
            exact ih (i + 1) _ false s hrest (by omega) hregs hchain2
              (fun h => absurd h (by simp)) (fun h => absurd h (by simp))
          · rw [frLoop_noise _ _ _ _ _ _ hq]
            push_neg at hq
            have hlr : leadRun (true :: rest) = leadRun rest + 1 := by simp [leadRun]
            refine ih (i + 1) R true s hrest (by omega)
              (fun p hp => ⟨(hR p hp).1, (hR p hp).2.1, by have := (hR p hp).2.2; omega⟩)
              hchain (fun _ => ⟨by omega, hss, hlt⟩) (fun _ _ => ⟨by omega, ?_⟩)
            intro hcon
            have hle := leadRun_le_length rest
            have : leadRun (true :: rest) = rest.length + 1 := by omega
            exact hq.2 this

/-- Claim C4.  Every interval returned by `find_regions` satisfies
`0 ≤ start < end ≤ axisLength` (the lower bound is automatic over ℕ) and
`end - start ≥ minSize`: a detected region shorter than `minSize` is
discarded, never emitted. -/
theorem claim4_interval_bounds (w : List Bool) (mg ms : Nat) :
    ∀ p ∈ find_regions w mg ms, p.1 < p.2 ∧ p.2 ≤ w.length ∧ ms ≤ p.2 - p.1 := by
  intro p hp
  have h := (frLoop_inv w mg ms w 0 [] false 0 (by simp) (by simp) (by simp) (by simp)
    (fun hc => absurd hc (by simp)) (fun hc => absurd hc (by simp))).1 p hp
  exact ⟨h.1, h.2.1, h.2.2.1⟩

/-- Witness for claim C4: on the axis `[content]` with `minSize = 1` the
returned interval `(0, 1)` satisfies the bounds. -/
theorem claim4_witness :
    (0, 1) ∈ find_regions [false] 3 1 ∧
      (0 < 1 ∧ 1 ≤ ([false] : List Bool).length ∧ 1 ≤ 1 - 0) :=
  ⟨by decide, claim4_interval_bounds [false] 3 1 (0, 1) (by decide)⟩

/-- Claim C10.  The intervals returned by `find_regions` are strictly
ordered and pairwise disjoint (each ends strictly before the next
starts), and every returned interval starts and ends on a content line:
the blank flags at `start` and at `end - 1` are `false`. -/
theorem claim10_ordered_content (w : List Bool) (mg ms : Nat) :
    List.Chain' sep (find_regions w mg ms) ∧
    ∀ p ∈ find_regions w mg ms,
      w.getD p.1 false = false ∧ w.getD (p.2 - 1) false = false := by
  have h := frLoop_inv w mg ms w 0 [] false 0 (by simp) (by simp) (by simp) (by simp)
    (fun hc => absurd hc (by simp)) (fun hc => absurd hc (by simp))
  exact ⟨h.2, fun p hp => ⟨(h.1 p hp).2.2.2.1, (h.1 p hp).2.2.2.2⟩⟩

/-- Witness for claim C10 on the axis `[content, blank, content]` with
`minGap = minSize = 1`: the intervals `(0,1), (2,3)` are separated, and
the first one starts and ends on a content line. -/
theorem claim10_witness :
    List.Chain' sep (find_regions [false, true, false] 1 1) ∧
    ((0, 1) ∈ find_regions [false, true, false] 1 1 ∧
      ([false, true, false] : List Bool).getD 0 false = false ∧
      ([false, true, false] : List Bool).getD (1 - 1) false = false) :=
  ⟨(claim10_ordered_content [false, true, false] 1 1).1,
    by decide, (claim10_ordered_content [false, true, false] 1 1).2 (0, 1) (by decide)⟩

theorem assembleSlices_length (v h : List (Nat × Nat)) :
    (assembleSlices v h).length = v.length * h.length := by
  simp [assembleSlices]
  have hc : (List.length ∘ fun v : Nat × (Nat × Nat) =>
      List.map (fun hc => (v.1, hc.1, v.2, hc.2)) h.enum) = fun _ => h.length := by
    funext x
    simp
  rw [hc, List.map_const', List.sum_replicate]
  simp [smul_eq_mul]

/-- Claim C5.  If `find_regions` returns no region on an axis, the
pipeline substitutes the single whole-axis interval `(0, axisLength)`;
both per-axis region lists of the grid are therefore non-empty, and the
grid always emits at least one slice — zero detected regions is not an
error. -/
theorem claim5_fallback (vw hw : List Bool) (mg ms : Nat) :
    (find_regions vw mg ms = [] →
      fallback vw.length (find_regions vw mg ms) = [(0, vw.length)]) ∧
    1 ≤ (fallback vw.length (find_regions vw mg ms)).length ∧
    1 ≤ (fallback hw.length (find_regions hw mg ms)).length ∧
    1 ≤ (assembleSlices (fallback vw.length (find_regions vw mg ms))
          (fallback hw.length (find_regions hw mg ms))).length := by
  have hlen : ∀ (w : List Bool), 1 ≤ (fallback w.length (find_regions w mg ms)).length := by
    intro w
    rw [fallback]
    by_cases he : (find_regions w mg ms).isEmpty
    · rw [if_pos he]
      simp
    · rw [if_neg he]
      rcases hre : find_regions w mg ms with _ | ⟨p, t⟩
      · rw [hre] at he
        simp at he
      · simp
  refine ⟨fun he => by simp [fallback, he], hlen vw, hlen hw, ?_⟩
  rw [assembleSlices_length]
  have h1 := hlen vw
  have h2 := hlen hw
  exact Nat.one_le_iff_ne_zero.mpr (Nat.mul_ne_zero (by omega) (by omega))

/-- Witness for claim C5: on the all-blank axis `[blank]` no region is
detected and the fallback is the whole-axis interval `(0, 1)`. -/
theorem claim5_witness :
    find_regions [true] 1 1 = [] ∧
      fallback ([true] : List Bool).length (find_regions [true] 1 1) = [(0, 1)] :=
  ⟨by decide, (claim5_fallback [true] [true] 1 1).1 (by decide)⟩

theorem scanTrimAux_le (f : Nat → Bool) : ∀ limit i, scanTrimAux f limit i ≤ i + limit := by
  intro limit
  induction limit with
  | zero => intro i; simp [scanTrimAux]
  | succ k ih =>
      intro i
      rw [scanTrimAux]
      by_cases hf : f i
      · rw [if_pos hf]
        have := ih (i + 1)
        omega
      · rw [if_neg hf]
        omega

theorem scanTrim_le (f : Nat → Bool) (limit : Nat) : scanTrim f limit ≤ limit := by
  have := scanTrimAux_le f limit 0
  simpa [scanTrim] using this

theorem scanTrim_zero (f : Nat → Bool) (limit : Nat) (h : f 0 = false) :
    scanTrim f limit = 0 := by
  cases limit with
  | zero => rfl
  | succ k => simp [scanTrim, scanTrimAux, h]

/-- Claim C3.  For a sub-image of height and width at least 1, every trim
count is bounded by `min maxTrim (dimension / 4)` on its perpendicular
dimension; consequently the top and bottom counts together, and the left
and right counts together, leave at least one pixel of the respective
dimension, so applying the counts never collapses or inverts the crop
rectangle. -/
theorem claim3_trim_bounds (img : List (List (List Nat))) (thr : Nat) (ratio : ℚ)
    (maxTrim : Nat) (sides : String) (hh : 1 ≤ img.length) (hw : 1 ≤ imgWidth img) :
    (trim_white_border img thr ratio maxTrim sides).1 ≤ min maxTrim (img.length / 4) ∧
    (trim_white_border img thr ratio maxTrim sides).2.1 ≤ min maxTrim (img.length / 4) ∧
    (trim_white_border img thr ratio maxTrim sides).2.2.1 ≤ min maxTrim (imgWidth img / 4) ∧
    (trim_white_border img thr ratio maxTrim sides).2.2.2 ≤ min maxTrim (imgWidth img / 4) ∧
    1 ≤ img.length - ((trim_white_border img thr ratio maxTrim sides).1 +
      (trim_white_border img thr ratio maxTrim sides).2.1) ∧
    1 ≤ imgWidth img - ((trim_white_border img thr ratio maxTrim sides).2.2.1 +
      (trim_white_border img thr ratio maxTrim sides).2.2.2) := by
  have hbound : ∀ (f : Nat → Bool) (c : Char) (d : Nat),
      (if sideEnabled sides c then scanTrim f (min maxTrim (d / 4)) else 0) ≤
        min maxTrim (d / 4) := by
    intro f c d
    by_cases hs : sideEnabled sides c
    · rw [if_pos hs]
      exact scanTrim_le _ _
    · rw [if_neg hs]
      exact Nat.zero_le _
  have h1 : (trim_white_border img thr ratio maxTrim sides).1 ≤
      min maxTrim (img.length / 4) :=
    hbound (fun i => is_edge_white thr ratio (imgRow img i)) 't' img.length
  have h2 : (trim_white_border img thr ratio maxTrim sides).2.1 ≤
      min maxTrim (img.length / 4) :=
    hbound (fun i => is_edge_white thr ratio (imgRow img (img.length - 1 - i))) 'b' img.length
  have h3 : (trim_white_border img thr ratio maxTrim sides).2.2.1 ≤
      min maxTrim (imgWidth img / 4) :=
    hbound (fun i => is_edge_white thr ratio (imgCol img i)) 'l' (imgWidth img)
  have h4 : (trim_white_border img thr ratio maxTrim sides).2.2.2 ≤
      min maxTrim (imgWidth img / 4) :=
    hbound (fun i => is_edge_white thr ratio (imgCol img (imgWidth img - 1 - i))) 'r'
      (imgWidth img)
  refine ⟨h1, h2, h3, h4, ?_, ?_⟩
  · have := Nat.min_le_right maxTrim (img.length / 4)
    omega
  · have := Nat.min_le_right maxTrim (imgWidth img / 4)
    omega

/-- Witness for claim C3 on the 1×1 black image: all trim counts are 0
and both dimensions stay at least 1. -/
theorem claim3_witness :
    (1 ≤ ([[[0]]] : List (List (List Nat))).length ∧
      1 ≤ imgWidth ([[[0]]] : List (List (List Nat)))) ∧
    (trim_white_border [[[0]]] 250 (4/5) 10 "tblr").1 ≤ min 10 (([[[0]]] : List (List (List Nat))).length / 4) ∧
    (trim_white_border [[[0]]] 250 (4/5) 10 "tblr").2.1 ≤ min 10 (([[[0]]] : List (List (List Nat))).length / 4) ∧
    (trim_white_border [[[0]]] 250 (4/5) 10 "tblr").2.2.1 ≤ min 10 (imgWidth ([[[0]]] : List (List (List Nat))) / 4) ∧
    (trim_white_border [[[0]]] 250 (4/5) 10 "tblr").2.2.2 ≤ min 10 (imgWidth ([[[0]]] : List (List (List Nat))) / 4) ∧
    1 ≤ ([[[0]]] : List (List (List Nat))).length -
      ((trim_white_border [[[0]]] 250 (4/5) 10 "tblr").1 +
        (trim_white_border [[[0]]] 250 (4/5) 10 "tblr").2.1) ∧
    1 ≤ imgWidth ([[[0]]] : List (List (List Nat))) -
      ((trim_white_border [[[0]]] 250 (4/5) 10 "tblr").2.2.1 +
        (trim_white_border [[[0]]] 250 (4/5) 10 "tblr").2.2.2) :=
  ⟨⟨by decide, by decide⟩,
    claim3_trim_bounds [[[0]]] 250 (4/5) 10 "tblr" (by decide) (by decide)⟩

/-- Claim C6.  Trimming is a fixed point on its own output: if `img'` is
the crop produced by the counts of a first `trim_white_border` run and on
each enabled side the new edge line of `img'` is classified non-blank
under the same threshold and ratio, then re-running `trim_white_border`
on `img'` with identical parameters trims nothing. -/
theorem claim6_trim_fixed_point (img : List (List (List Nat))) (thr : Nat) (ratio : ℚ)
    (maxTrim : Nat) (sides : String) (img2 : List (List (List Nat)))
    (_himg : img2 = applyTrim img (trim_white_border img thr ratio maxTrim sides).1
      (trim_white_border img thr ratio maxTrim sides).2.1
      (trim_white_border img thr ratio maxTrim sides).2.2.1
      (trim_white_border img thr ratio maxTrim sides).2.2.2)
    (ht : sideEnabled sides 't' = true → is_edge_white thr ratio (imgRow img2 0) = false)
    (hb : sideEnabled sides 'b' = true →
      is_edge_white thr ratio (imgRow img2 (img2.length - 1)) = false)
    (hl : sideEnabled sides 'l' = true → is_edge_white thr ratio (imgCol img2 0) = false)
    (hr : sideEnabled sides 'r' = true →
      is_edge_white thr ratio (imgCol img2 (imgWidth img2 - 1)) = false) :
    trim_white_border img2 thr ratio maxTrim sides = (0, 0, 0, 0) := by
  have hcomp : ∀ (f : Nat → Bool) (c : Char) (d : Nat),
      (sideEnabled sides c = true → f 0 = false) →
      (if sideEnabled sides c then scanTrim f (min maxTrim (d / 4)) else 0) = 0 := by
    intro f c d hf
    by_cases hs : sideEnabled sides c
    · rw [if_pos hs]
      exact scanTrim_zero _ _ (hf hs)
    · rw [if_neg hs]
  rw [trim_white_border]
  rw [hcomp _ 't' _ (fun hs => ht hs),
    hcomp _ 'b' _ (fun hs => by simpa using hb hs),
    hcomp _ 'l' _ (fun hs => hl hs),
    hcomp _ 'r' _ (fun hs => by simpa using hr hs)]

/-- Witness for claim C6 on the 1×1 black image: the first trim returns
zero counts, the crop is the image itself, every edge line is non-blank,
and the second trim returns `(0, 0, 0, 0)`. -/
theorem claim6_witness :
    (([[[0]]] : List (List (List Nat))) = applyTrim [[[0]]]
      (trim_white_border [[[0]]] 250 (4/5) 10 "tblr").1
      (trim_white_border [[[0]]] 250 (4/5) 10 "tblr").2.1
      (trim_white_border [[[0]]] 250 (4/5) 10 "tblr").2.2.1
      (trim_white_border [[[0]]] 250 (4/5) 10 "tblr").2.2.2) ∧
    is_edge_white 250 (4/5) [[0]] = false ∧
    trim_white_border [[[0]]] 250 (4/5) 10 "tblr" = (0, 0, 0, 0) := by
  have hedge : is_edge_white 250 (4/5) [[0]] = false := by
    simp [is_edge_white, npMeanBool, brightPixel, brightness]
  refine ⟨by decide, hedge, ?_⟩
  exact claim6_trim_fixed_point [[[0]]] 250 (4/5) 10 "tblr" [[[0]]] (by decide)
    (fun _ => hedge) (fun _ => hedge) (fun _ => hedge) (fun _ => hedge)

theorem enumFrom_fst_ge {α : Type} (l : List α) : ∀ k, ∀ x ∈ l.enumFrom k, k ≤ x.1 := by
  induction l with
  | nil => intro k x hx; simp [List.enumFrom] at hx
  | cons a t ih =>
      intro k x hx
      rw [List.enumFrom] at hx
      rcases List.mem_cons.mp hx with hx | hx
      · rw [hx]
      · have := ih (k + 1) x hx
        omega

theorem enumFrom_fst_lt {α : Type} (l : List α) :
    ∀ k, List.Pairwise (fun a b => a.1 < b.1) (l.enumFrom k) := by
  induction l with
  | nil => intro k; simp [List.enumFrom]
  | cons a t ih =>
      intro k
      rw [List.enumFrom]
      exact List.Pairwise.cons
        (fun y hy => by have := enumFrom_fst_ge t (k + 1) y hy; omega) (ih (k + 1))

theorem assembleSlices_pairwise_aux (h : List (Nat × Nat)) (v : List (Nat × Nat)) :
    ∀ k, List.Pairwise (fun s t => s.1 < t.1 ∨ (s.1 = t.1 ∧ s.2.1 < t.2.1))
      ((v.enumFrom k).flatMap (fun vv => h.enum.map (fun hh => (vv.1, hh.1, vv.2, hh.2)))) := by
  induction v with
  | nil => intro k; simp [List.enumFrom]
  | cons x v ih =>
      intro k
      rw [List.enumFrom, List.flatMap_cons]
      rw [List.pairwise_append]
      refine ⟨?_, ih (k + 1), ?_⟩
      · rw [List.pairwise_map]
        exact (enumFrom_fst_lt h 0).imp (fun hab => Or.inr ⟨rfl, hab⟩)
      · intro a ha bb hbb
        have ha1 : a.1 = k := by
          rcases List.mem_map.mp ha with ⟨hh, _, rfl⟩
          rfl
        rcases List.mem_flatMap.mp hbb with ⟨vv, hvv, hbb2⟩
        have hb1 : bb.1 = vv.1 := by
          rcases List.mem_map.mp hbb2 with ⟨hh, _, rfl⟩
          rfl
        have := enumFrom_fst_ge v (k + 1) vv hvv
        exact Or.inl (by omega)

/-- Claim C9.  `assembleSlices` emits exactly `|rowRegions| ×
|colRegions|` slices; the emitted `(row, col)` cell indices are strictly
increasing in row-major lexicographic order (outer rows ascending, inner
columns ascending); and with template `"{name}_{N}"` on a 2×2 grid with
`totalCols = 2` the resolved names are `base_1, base_2, base_3, base_4`
in emission order. -/
theorem claim9_row_major :
    (∀ (v h : List (Nat × Nat)), (assembleSlices v h).length = v.length * h.length) ∧
    (∀ (v h : List (Nat × Nat)), List.Pairwise
      (fun s t => s.1 < t.1 ∨ (s.1 = t.1 ∧ s.2.1 < t.2.1)) (assembleSlices v h)) ∧
    (∀ (base : String) (r1 r2 c1 c2 : Nat × Nat),
      assembleNames base [r1, r2] [c1, c2] "{name}_{N}" [] =
        [Except.ok (base ++ "_1"), Except.ok (base ++ "_2"),
          Except.ok (base ++ "_3"), Except.ok (base ++ "_4")]) := by
  refine ⟨assembleSlices_length, fun v h => ?_,
    fun base r1 r2 c1 c2 => by with_unfolding_all rfl⟩
  have := assembleSlices_pairwise_aux h v 0
  simpa [assembleSlices, List.enum] using this

end SplitImage
